import Mathlib

/-!
Verification of the pastebin schema migration
(apps/djen_project/pastebin/migrations/0001_initial.py, generated by
Django 2.0.3).

The migration declares a single model, `Paste`, with five columns.  The
declarations below embed the migration literally; the storage-layer
operations (insert, update, delete) that a database derives from those
declarations are not part of the repository, so they are modelled from the
specification's schema contract, driven by the declared field options.
-/

namespace Pastebin

/-- A Django model field declaration, restricted to the field kinds and the
options that occur in the migration.  Options keep their Django names and
the order in which the migration passes them. -/
inductive Field where
  | AutoField (auto_created : Bool) (primary_key : Bool) (serialize : Bool) (verbose_name : String)
  | TextField
  | CharField (blank : Bool) (max_length : Nat) ( null : Bool)
  | DateTimeField (auto_now_add : Bool) (auto_now : Bool)
deriving DecidableEq

/-- Column `id`: `models.AutoField(auto_created=True, primary_key=True, serialize=False, verbose_name='ID')`. -/
def id_field : Field := .AutoField true true false "ID"

/-- Column `text`: `models.TextField()`. -/
def text_field : Field := .TextField

/-- Column `name`: `models.CharField(blank=True, max_length=40, null=True)`. -/
def name_field : Field := .CharField true 40 true

/-- Column `created_on`: `models.DateTimeField(auto_now_add=True)` (Django's `auto_now` default is `False`). -/
def created_on_field : Field := .DateTimeField true false

/-- Column `updated_on`: `models.DateTimeField(auto_now=True)` (Django's `auto_now_add` default is `False`). -/
def updated_on_field : Field := .DateTimeField false true

/-- The field list of the `CreateModel('Paste', ...)` operation, in the
order the migration writes it. -/
def pasteFields : List (String × Field) :=
  [("id", id_field), ("text", text_field), ("name", name_field),
   ("created_on", created_on_field), ("updated_on", updated_on_field)]

/-- A migration operation; the migration uses only `CreateModel`. -/
inductive Operation where
  | CreateModel (name : String) (fields : List (String × Field))
deriving DecidableEq

/-- A Django migration: the `initial` flag, the `dependencies` list
(app-name, migration-name pairs) and the `operations` list. -/
structure Migration where
  initial : Bool
  dependencies : List (String × String)
  operations : List Operation
deriving DecidableEq

/-- The migration `0001_initial` exactly as the source writes it:
`initial = True`, no dependencies, and a single `CreateModel` of `Paste`. -/
def migration_0001 : Migration :=
  { initial := true
    dependencies := []
    operations := [.CreateModel "Paste" pasteFields] }

/-- A database schema: a list of models, each a named list of fields. -/
abbrev Schema := List (String × List (String × Field))

/-- Applying one migration operation to a schema. -/
def applyOperation (s : Schema) : Operation → Schema
  | .CreateModel n fs => s ++ [(n, fs)]

/-- Applying a migration: its operations are applied in order. -/
def Migration.apply (m : Migration) (s : Schema) : Schema :=
  m.operations.foldl applyOperation s

/-- Whether a declared field admits SQL NULL.  A `CharField` carries its
`null` option from the migration; `TextField` and `DateTimeField` use
Django's default `null=False`, and an `AutoField` primary key is not
nullable. -/
def Field.allowsNull : Field → Bool
  | .CharField _ _ n => n
  | _ => false

/-- Whether an optional string value is accepted by a string-typed column:
NULL only when the field allows null, and a present string is checked
against `max_length` when the field declares one (`CharField`); a
`TextField` accepts a string of any length. -/
def Field.acceptsOptStr : Field → Option String → Bool
  | f, none => f.allowsNull
  | .CharField _ m _, some s => decide (s.length ≤ m)
  | _, some _ => true

/-- The `auto_now_add` option of a `DateTimeField`. -/
def Field.isAutoNowAdd : Field → Bool
  | .DateTimeField a _ => a
  | _ => false

/-- The `auto_now` option of a `DateTimeField`. -/
def Field.isAutoNow : Field → Bool
  | .DateTimeField _ a => a
  | _ => false

/-- A stored `Paste` row.  String columns are stored as `Option String` so
that NULL is representable; timestamps are abstract instants (`Nat`). -/
structure Row where
  id : Nat
  text : Option String
  name : Option String
  created_on : Nat
  updated_on : Nat
deriving DecidableEq

/-- Constraint violations a storage layer reports. -/
inductive DbError where
  | nullTextViolation
  | nameTooLong
  | rowNotFound
deriving DecidableEq

/-- Database state for the `Paste` table: the rows, the auto-increment
counter (`nextId`, starting at 1 as in SQL backends), the append-only
history of ids ever assigned (`usedIds`, a ghost field recording
assignment order), and the time of the last write (`clock`). -/
structure DB where
  rows : List Row
  nextId : Nat
  usedIds : List Nat
  clock : Nat
deriving DecidableEq

/-- The empty database the initial migration produces. -/
def DB.init : DB := { rows := [], nextId := 1, usedIds := [], clock := 0 }

/-- Modelled from the spec: the repository ships only the migration's field
declarations; the insert routine a storage layer derives from them is not
under src/.  Following the spec's schema contract, an insert at time `t`
validates `text` and `name` against the declared columns, assigns the next
auto-increment id, and — because `created_on` has `auto_now_add=True` and
`updated_on` has `auto_now=True` — stamps both timestamps with `t`,
ignoring any caller-supplied values. -/
def DB.insert (db : DB) (t : Nat) (text name : Option String)
    (callerCreated callerUpdated : Option Nat) : Except DbError DB :=
  if text_field.acceptsOptStr text = false then .error .nullTextViolation
  else if name_field.acceptsOptStr name = false then .error .nameTooLong
  else
    .ok { rows := db.rows ++
            [{ id := db.nextId
               text := text
               name := name
               created_on := if created_on_field.isAutoNowAdd then t else callerCreated.getD t
               updated_on := if updated_on_field.isAutoNow then t else callerUpdated.getD t }]
          nextId := db.nextId + 1
          usedIds := db.usedIds ++ [db.nextId]
          clock := t }

/-- Modelled from the spec: the update routine is likewise not under src/.
Updating row `i` at time `t` validates the new column values, rewrites
`text` and `name`, keeps `id`, keeps `created_on` (an `auto_now_add` field
is set only at insert) and — because `updated_on` has `auto_now=True` —
stamps `updated_on` with `t`, ignoring caller-supplied timestamps. -/
def DB.update (db : DB) (t : Nat) (i : Nat) (newText newName : Option String)
    (callerCreated callerUpdated : Option Nat) : Except DbError DB :=
  match db.rows.find? (fun r => r.id == i) with
  | none => .error .rowNotFound
  | some _ =>
    if text_field.acceptsOptStr newText = false then .error .nullTextViolation
    else if name_field.acceptsOptStr newName = false then .error .nameTooLong
    else
      .ok { db with
        clock := t
        rows := db.rows.map fun r =>
          if r.id == i then
            { r with
              text := newText
              name := newName
              created_on := if created_on_field.isAutoNowAdd then r.created_on
                            else callerCreated.getD r.created_on
              updated_on := if updated_on_field.isAutoNow then t
                            else callerUpdated.getD r.updated_on }
          else r }

/-- Modelled from the spec: deletion is "an external operation not described
here"; it removes the row and touches neither the auto-increment counter
nor the id history. -/
def DB.delete (db : DB) (i : Nat) : DB :=
  { db with rows := db.rows.filter fun r => r.id != i }

/-- The states reachable from the freshly migrated database by successful
inserts, updates and deletes, with a monotone clock (each write happens no
earlier than the previous one). -/
inductive Reachable : DB → Prop where
  | init : Reachable DB.init
  | insert {db db' : DB} {t : Nat} {text name : Option String} {cc cu : Option Nat} :
      Reachable db → db.clock ≤ t → db.insert t text name cc cu = .ok db' → Reachable db'
  | update {db db' : DB} {t i : Nat} {text name : Option String} {cc cu : Option Nat} :
      Reachable db → db.clock ≤ t → db.update t i text name cc cu = .ok db' → Reachable db'
  | delete {db : DB} (i : Nat) : Reachable db → Reachable (db.delete i)

/-- The inductive invariant maintained by every reachable database state:
rows are time-consistent and have ids below the counter, the id history is
strictly increasing and below the counter, every live row's id was
assigned, and live rows carry strictly increasing (hence distinct) ids. -/
structure Inv (db : DB) : Prop where
  rowsOk : ∀ r ∈ db.rows, r.created_on ≤ r.updated_on ∧ r.updated_on ≤ db.clock ∧ r.id < db.nextId
  usedSorted : List.Pairwise (· < ·) db.usedIds
  usedLt : ∀ x ∈ db.usedIds, x < db.nextId
  rowsUsed : ∀ r ∈ db.rows, r.id ∈ db.usedIds
  idsSorted : List.Pairwise (· < ·) (db.rows.map Row.id)

theorem inv_init : Inv DB.init := by
  constructor <;> simp [DB.init]

theorem inv_insert {db db' : DB} {t : Nat} {text name : Option String} {cc cu : Option Nat}
    (hInv : Inv db) (hc : db.clock ≤ t) (h : db.insert t text name cc cu = .ok db') :
    Inv db' := by
  unfold DB.insert at h
  split at h
  · simp at h
  split at h
  · simp at h
  injection h with h
  subst h
  constructor
  · intro r hr
    rw [List.mem_append] at hr
    rcases hr with hr | hr
    · obtain ⟨h1, h2, h3⟩ := hInv.rowsOk r hr
      exact ⟨h1, Nat.le_trans h2 hc, Nat.lt_succ_of_lt h3⟩
    · rw [List.mem_singleton] at hr
      subst hr
      simp [created_on_field, updated_on_field, Field.isAutoNowAdd, Field.isAutoNow]
  · rw [List.pairwise_append]
    refine ⟨hInv.usedSorted, List.pairwise_singleton _ _, ?_⟩
    intro x hx y hy
    rw [List.mem_singleton] at hy
    subst hy
    exact hInv.usedLt x hx
  · intro x hx
    rw [List.mem_append] at hx
    rcases hx with hx | hx
    · exact Nat.lt_succ_of_lt (hInv.usedLt x hx)
    · rw [List.mem_singleton] at hx
      subst hx
      exact Nat.lt_succ_self _
  · intro r hr
    rw [List.mem_append] at hr ⊢
    rcases hr with hr | hr
    · exact Or.inl (hInv.rowsUsed r hr)
    · rw [List.mem_singleton] at hr
      subst hr
      exact Or.inr (by simp)
  · rw [List.map_append, List.pairwise_append]
    refine ⟨hInv.idsSorted, by simp, ?_⟩
    intro a ha b hb
    rw [List.mem_map] at ha
    obtain ⟨r, hr, rfl⟩ := ha
    simp only [List.map_cons, List.map_nil, List.mem_singleton] at hb
    subst hb
    exact (hInv.rowsOk r hr).2.2

theorem inv_update {db db' : DB} {t i : Nat} {newText newName : Option String}
    {cc cu : Option Nat} (hInv : Inv db) (hc : db.clock ≤ t)
    (h : db.update t i newText newName cc cu = .ok db') :
    Inv db' := by
  unfold DB.update at h
  split at h
  · simp at h
  split at h
  · simp at h
  split at h
  · simp at h
  injection h with h
  subst h
  have hid : ∀ r : Row,
      (if r.id == i then
        { r with
          text := newText
          name := newName
          created_on := if created_on_field.isAutoNowAdd then r.created_on
                        else cc.getD r.created_on
          updated_on := if updated_on_field.isAutoNow then t
                        else cu.getD r.updated_on }
      else r).id = r.id := by
    intro r
    split <;> rfl
  constructor
  · intro r' hr'
    rw [List.mem_map] at hr'
    obtain ⟨r, hr, rfl⟩ := hr'
    obtain ⟨h1, h2, h3⟩ := hInv.rowsOk r hr
    split
    · simp only [created_on_field, updated_on_field, Field.isAutoNowAdd, Field.isAutoNow,
        if_true]
      exact ⟨Nat.le_trans h1 (Nat.le_trans h2 hc), Nat.le_refl t, h3⟩
    · exact ⟨h1, Nat.le_trans h2 hc, h3⟩
  · exact hInv.usedSorted
  · exact hInv.usedLt
  · intro r' hr'
    rw [List.mem_map] at hr'
    obtain ⟨r, hr, rfl⟩ := hr'
    rw [hid r]
    exact hInv.rowsUsed r hr
  · rw [List.map_map]
    have : db.rows.map (Row.id ∘ fun r =>
        (if r.id == i then
          { r with
            text := newText
            name := newName
            created_on := if created_on_field.isAutoNowAdd then r.created_on
                          else cc.getD r.created_on
            updated_on := if updated_on_field.isAutoNow then t
                          else cu.getD r.updated_on }
        else r)) = db.rows.map Row.id :=
      List.map_congr_left (fun r _ => hid r)
    rw [this]
    exact hInv.idsSorted

theorem inv_delete {db : DB} (i : Nat) (hInv : Inv db) : Inv (db.delete i) := by
  constructor
  · intro r hr
    exact hInv.rowsOk r (List.mem_of_mem_filter hr)
  · exact hInv.usedSorted
  · exact hInv.usedLt
  · intro r hr
    exact hInv.rowsUsed r (List.mem_of_mem_filter hr)
  · exact hInv.idsSorted.sublist (List.Sublist.map Row.id (List.filter_sublist db.rows))

theorem reachable_inv {db : DB} (h : Reachable db) : Inv db := by
  induction h with
  | init => exact inv_init
  | insert hr hc he ih => exact inv_insert ih hc he
  | update hr hc he ih => exact inv_update ih hc he
  | delete i hr ih => exact inv_delete i ih

/-- Whether a storage operation succeeded. -/
def writeOk : Except DbError DB → Bool
  | .ok _ => true
  | .error _ => false

/-- The row produced by inserting text "hello" with no name at time 0 into
the fresh database. -/
def rowA : Row :=
  { id := 1, text := some "hello", name := none, created_on := 0, updated_on := 0 }

/-- The database after that first insert. -/
def dbA : DB := { rows := [rowA], nextId := 2, usedIds := [1], clock := 0 }

theorem insert_init_eq : DB.init.insert 0 (some "hello") none none none = .ok dbA := by
  rfl

theorem reachable_dbA : Reachable dbA :=
  Reachable.insert Reachable.init (Nat.le_refl 0) insert_init_eq

/-- The row of `dbA` after updating its text and name at time 1. -/
def rowB : Row :=
  { id := 1, text := some "bye", name := some "x", created_on := 0, updated_on := 1 }

/-- The database after that update. -/
def dbB : DB := { rows := [rowB], nextId := 2, usedIds := [1], clock := 1 }

theorem update_dbA_eq : dbA.update 1 1 (some "bye") (some "x") none none = .ok dbB := by
  rfl

/-- C1: for every Paste row of every reachable database state (immediately
after creation and after any sequence of updates and deletes),
`created_on` is less than or equal to `updated_on`. -/
theorem created_le_updated_invariant {db : DB} (h : Reachable db) :
    ∀ r ∈ db.rows, r.created_on ≤ r.updated_on :=
  fun r hr => ((reachable_inv h).rowsOk r hr).1

theorem created_le_updated_invariant_witness : rowA.created_on ≤ rowA.updated_on :=
  created_le_updated_invariant reachable_dbA rowA (by simp [dbA])

/-- C2: inserting a Paste that supplies `text` but omits `name` (name
NULL) succeeds, and inserting a Paste that omits `text` (text NULL) is
rejected, for every database state, time and caller-supplied values. -/
theorem insert_null_name_ok_null_text_fails (db : DB) (t : Nat) (s : String)
    (name : Option String) (cc cu : Option Nat) :
    writeOk (db.insert t (some s) none cc cu) = true ∧
    db.insert t none name cc cu = .error .nullTextViolation := by
  constructor
  · simp [DB.insert, text_field, name_field, Field.acceptsOptStr, Field.allowsNull, writeOk]
  · simp [DB.insert, text_field, Field.acceptsOptStr, Field.allowsNull]

/-- C3: with a valid `text`, inserting a non-null `name` — and updating an
existing row to it — succeeds exactly when the name's length is at most
40; length 41 or more is rejected. -/
theorem name_max_length_40 (db : DB) (t : Nat) (s nm : String) (cc cu : Option Nat) :
    (writeOk (db.insert t (some s) (some nm) cc cu) = true ↔ nm.length ≤ 40) ∧
    ∀ i r, db.rows.find? (fun r0 => r0.id == i) = some r →
      (writeOk (db.update t i (some s) (some nm) cc cu) = true ↔ nm.length ≤ 40) := by
  constructor
  · by_cases hnm : nm.length ≤ 40 <;>
      simp [DB.insert, text_field, name_field, Field.acceptsOptStr, Field.allowsNull,
        writeOk, hnm]
  · intro i r hfind
    unfold DB.update
    rw [hfind]
    by_cases hnm : nm.length ≤ 40 <;>
      simp [text_field, name_field, Field.acceptsOptStr, Field.allowsNull, writeOk, hnm]

theorem name_max_length_40_witness :
    writeOk (dbA.update 1 1 (some "bye") (some "x") none none) = true ↔
      ("x" : String).length ≤ 40 :=
  (name_max_length_40 dbA 1 "bye" "x" none none).2 1 rowA (by rfl)

/-- C4: every successful insert appends exactly one row whose `created_on`
and `updated_on` both equal the insertion time `t`, regardless of the
caller-supplied timestamp values. -/
theorem insert_sets_both_timestamps {db db' : DB} {t : Nat} {text name : Option String}
    {cc cu : Option Nat} (h : db.insert t text name cc cu = .ok db') :
    ∃ r : Row, db'.rows = db.rows ++ [r] ∧ r.created_on = t ∧ r.updated_on = t := by
  unfold DB.insert at h
  split at h
  · simp at h
  split at h
  · simp at h
  injection h with h
  subst h
  exact ⟨_, rfl, by simp [created_on_field, Field.isAutoNowAdd],
    by simp [updated_on_field, Field.isAutoNow]⟩

theorem insert_sets_both_timestamps_witness :
    rowA.created_on = 0 ∧ rowA.updated_on = 0 := by
  obtain ⟨r, hr, h1, h2⟩ := insert_sets_both_timestamps insert_init_eq
  have hrA : r = rowA := by
    simp [dbA, DB.init] at hr
    exact hr.symm
  subst hrA
  exact ⟨h1, h2⟩

/-- C5: every successful update leaves the rows' ids and `created_on`
values unchanged (row for row) and sets the modified row's `updated_on` to
the modification time `t`. -/
theorem update_refreshes_updated_on_only {db db' : DB} {t i : Nat}
    {newText newName : Option String} {cc cu : Option Nat}
    (h : db.update t i newText newName cc cu = .ok db') :
    db'.rows.map Row.id = db.rows.map Row.id ∧
    db'.rows.map Row.created_on = db.rows.map Row.created_on ∧
    ∀ r' ∈ db'.rows, r'.id = i → r'.updated_on = t := by
  unfold DB.update at h
  split at h
  · simp at h
  split at h
  · simp at h
  split at h
  · simp at h
  injection h with h
  subst h
  refine ⟨?_, ?_, ?_⟩
  · rw [List.map_map]
    apply List.map_congr_left
    intro r _
    show (if r.id == i then _ else r).id = r.id
    split <;> rfl
  · rw [List.map_map]
    apply List.map_congr_left
    intro r _
    show (if r.id == i then _ else r).created_on = r.created_on
    split
    · simp [created_on_field, Field.isAutoNowAdd]
    · rfl
  · intro r' hr' hid
    rw [List.mem_map] at hr'
    obtain ⟨r, hr, rfl⟩ := hr'
    revert hid
    split
    · intro _
      simp [updated_on_field, Field.isAutoNow]
    · intro hid
      rename_i hne
      exact absurd (beq_iff_eq.mpr hid) (by simpa using hne)

theorem update_refreshes_updated_on_only_witness :
    dbB.rows.map Row.id = dbA.rows.map Row.id ∧
    dbB.rows.map Row.created_on = dbA.rows.map Row.created_on ∧
    rowB.updated_on = 1 :=
  ⟨(update_refreshes_updated_on_only update_dbA_eq).1,
   (update_refreshes_updated_on_only update_dbA_eq).2.1,
   (update_refreshes_updated_on_only update_dbA_eq).2.2 rowB (by simp [dbB]) rfl⟩

/-- C6: in every reachable state the history of assigned ids is strictly
increasing in assignment order (so ids are pairwise distinct and an id,
once assigned, is never reused, even after deletion), the live rows carry
strictly increasing distinct ids drawn from that history, and the next
successful insert appends a strictly larger id than every id assigned so
far. -/
theorem ids_unique_never_reused {db : DB} (h : Reachable db) :
    List.Pairwise (· < ·) db.usedIds ∧
    List.Pairwise (· < ·) (db.rows.map Row.id) ∧
    (∀ r ∈ db.rows, r.id ∈ db.usedIds) ∧
    ∀ t text name cc cu db', db.insert t text name cc cu = .ok db' →
      db'.usedIds = db.usedIds ++ [db.nextId] ∧ ∀ x ∈ db.usedIds, x < db.nextId := by
  have hInv := reachable_inv h
  refine ⟨hInv.usedSorted, hInv.idsSorted, hInv.rowsUsed, ?_⟩
  intro t text name cc cu db' hins
  unfold DB.insert at hins
  split at hins
  · simp at hins
  split at hins
  · simp at hins
  injection hins with hins
  subst hins
  exact ⟨rfl, hInv.usedLt⟩

theorem ids_unique_never_reused_witness :
    List.Pairwise (· < ·) dbA.usedIds ∧ List.Pairwise (· < ·) (dbA.rows.map Row.id) :=
  ⟨(ids_unique_never_reused reachable_dbA).1, (ids_unique_never_reused reachable_dbA).2.1⟩

/-- C7: the `text` column imposes no maximum length: a string of any
length is accepted by the declared `TextField`, and inserting it
succeeds in every database state. -/
theorem text_unbounded_insert_ok (db : DB) (t : Nat) (s : String) (cc cu : Option Nat) :
    text_field.acceptsOptStr (some s) = true ∧
    writeOk (db.insert t (some s) none cc cu) = true := by
  refine ⟨rfl, ?_⟩
  simp [DB.insert, text_field, name_field, Field.acceptsOptStr, Field.allowsNull, writeOk]

/-- C8: callers cannot set `created_on` or `updated_on`: insert and update
results are independent of the caller-supplied timestamp values, because
`created_on` has `auto_now_add=True` and `updated_on` has `auto_now=True`. -/
theorem timestamps_system_managed (db : DB) (t i : Nat) (text name : Option String)
    (cc cu : Option Nat) :
    db.insert t text name cc cu = db.insert t text name none none ∧
    db.update t i text name cc cu = db.update t i text name none none := by
  constructor
  · simp [DB.insert, created_on_field, updated_on_field, Field.isAutoNowAdd, Field.isAutoNow]
  · unfold DB.update
    cases db.rows.find? (fun r => r.id == i) <;>
      simp [created_on_field, updated_on_field, Field.isAutoNowAdd, Field.isAutoNow]

/-- C9: the empty string is a valid `text` value at the schema level: the
`TextField` accepts it (only NULL is rejected) and inserting a Paste whose
text is the empty string succeeds in every database state. -/
theorem empty_text_ok (db : DB) (t : Nat) (cc cu : Option Nat) :
    text_field.acceptsOptStr (some "") = true ∧
    text_field.acceptsOptStr none = false ∧
    writeOk (db.insert t (some "") none cc cu) = true := by
  refine ⟨rfl, rfl, ?_⟩
  simp [DB.insert, text_field, name_field, Field.acceptsOptStr, Field.allowsNull, writeOk]

/-- C10: the migration is initial with an empty dependency list and exactly
one operation, `CreateModel` of Paste; applied to the empty schema it
yields exactly one model, Paste, whose fields are exactly `id`, `text`,
`name`, `created_on`, `updated_on`, in that order. -/
theorem migration_creates_paste_schema :
    migration_0001.initial = true ∧
    migration_0001.dependencies = [] ∧
    migration_0001.operations = [Operation.CreateModel "Paste" pasteFields] ∧
    migration_0001.apply [] = [("Paste", pasteFields)] ∧
    pasteFields.map Prod.fst = ["id", "text", "name", "created_on", "updated_on"] :=
  ⟨rfl, rfl, rfl, rfl, rfl⟩

end Pastebin
